import Mathlib

/-!
Shallow embedding of the generation orchestrator of this repository:
the `cinema-popcorn` edge function (reference analysis, sequence planning,
Kie task polling, frame/background request composition) and the
`StoryboardGrid` client orchestrator (`generateAll`, second variant,
`PENDING_LIMIT = 2`; the chunking is parameterised by the limit so the
first variant with `PENDING_LIMIT = 3` is covered as well).

Conventions used throughout:
- JavaScript string truthiness is modelled by `truthy` (a string is falsy
  exactly when it is empty, so `""` also stands for `undefined`/absent);
  `Option String` models values that can be `undefined`, with `truthyOpt`
  for a truthiness test on them.
- Fallible code returns `Except String α`; a thrown exception is an
  `Except.error` carrying the message.
- The poll loop of `generateWithKie` is given explicit fuel (the number of
  loop iterations executed); `KieOutcome.fuelOut` means the loop has not
  finished within that many iterations.
-/

namespace Popcorn

/-- JS string truthiness: a string is truthy iff it is non-empty. -/
def truthy (s : String) : Bool := s ≠ ""

/-- Truthiness of a possibly-undefined string value. -/
def truthyOpt (o : Option String) : Bool :=
  match o with
  | none => false
  | some s => s ≠ ""

/-- Normalises a provider result under the `if (data?.url)` checks of the
client: only a truthy url is kept. -/
def truthyRes (o : Option String) : Option String :=
  match o with
  | none => none
  | some s => if s = "" then none else some s

/-! ## The Kie poll loop (`generateWithKie`, poll phase)

One status poll of `https://api.kie.ai/.../recordInfo` can: come back
non-2xx (`!statusRes.ok`, which runs `continue`); throw while fetching or
decoding the body (caught by the loop's `catch`); or deliver a body with a
`state` string, optional parsed `resultUrls` and optional `failMsg`.
`resultUrls = none` covers both a missing field and a `resultJson` that
fails `JSON.parse` (both end in the same caught throw). -/

inductive PollResponse where
  | notOk : PollResponse
  | netThrow : PollResponse
  | body (state : String) (resultUrls : Option (List String)) (failMsg : Option String) :
      PollResponse

/-- What one iteration of the `try` block does with a poll response. -/
inductive IterStep where
  | ret (url : String)
  | thrown (msg : String)
  | skipInc
  | fallthru
deriving DecidableEq

/-- The body of the `try` block of the poll loop, translated branch by
branch from the source: `continue` on a non-2xx status, return of
`resultUrls[0]` on a success state with a non-empty list, a throw on a
success state without urls, a throw on a fail state, and plain fall-through
(to `attempts++`) otherwise. -/
def iterBody : PollResponse → IterStep
  | .notOk => .skipInc
  | .netThrow => .thrown "fetch failed"
  | .body st urls failMsg =>
    if st = "success" then
      match urls with
      | some (u :: _) => .ret u
      | _ => .thrown "Kie API returned success but no resultUrls"
    else if st = "fail" then
      .thrown ("Kie Task Failed: " ++ failMsg.getD "Unknown error")
    else
      .fallthru

/-- Outcome of running the poll loop with a given amount of fuel. `ok` is a
normal return, `err` an exception escaping the function, `fuelOut` means the
loop was still running after the given number of iterations. -/
inductive KieOutcome where
  | ok (url : String)
  | err (msg : String)
  | fuelOut
deriving DecidableEq

/-- The `while (attempts < 30)` poll loop. The three recursive branches
mirror the source exactly: a throw inside `try` is caught by the loop's own
`catch` (only logged) and is followed by `attempts++`; the `continue` taken
when the status response is non-2xx skips the `attempts++` at the bottom of
the loop body; a fall-through also reaches `attempts++`. When the loop
condition fails the function throws the timeout error. -/
def pollLoop (poll : Nat → PollResponse) : Nat → Nat → Nat → KieOutcome
  | 0, _, _ => .fuelOut
  | fuel + 1, polls, attempts =>
    if attempts < 30 then
      match iterBody (poll polls) with
      | .ret u => .ok u
      | .thrown _ => pollLoop poll fuel (polls + 1) (attempts + 1)
      | .skipInc => pollLoop poll fuel (polls + 1) attempts
      | .fallthru => pollLoop poll fuel (polls + 1) (attempts + 1)
    else .err "Kie Task Timeout (60s)"

/-- The poll phase of `generateWithKie`, started with `attempts = 0` on a
freshly created task, fed by the stream `poll` of status responses
(`poll i` is the response to the `i`-th poll). -/
def generateWithKie (poll : Nat → PollResponse) (fuel : Nat) : KieOutcome :=
  pollLoop poll fuel 0 0

/-- A status stream that always reports a non-2xx response. -/
def allNotOk : Nat → PollResponse := fun _ => PollResponse.notOk

/-- A status stream that always reports the task as waiting. -/
def allWaiting : Nat → PollResponse := fun _ => PollResponse.body "waiting" none none

/-- A status stream that always reports the provider-side fail state. -/
def allFail : Nat → PollResponse :=
  fun _ => PollResponse.body "fail" none (some "boom")

/-- A status stream reporting waiting for 29 polls and success on the
30th poll. -/
def wait29ThenSuccess : Nat → PollResponse := fun i =>
  if i < 29 then PollResponse.body "waiting" none none
  else PollResponse.body "success" (some ["https://img.example/out.png"]) none

/-! ## Data model (JSON shapes travelling between client and edge function) -/

/-- An analyzed reference image as the client holds it: the analysis fields
returned by `analyzeReference` (`type`, `description`, `key_features`) plus
a possibly-absent source `url` (absent is modelled as `""`). -/
structure Reference where
  url : String
  type : String
  description : String
  key_features : List String
deriving DecidableEq

/-- One background plate of the plan (`{ id, description }`). -/
structure Background where
  id : String
  description : String
deriving DecidableEq

/-- One frame of the plan, with its generated-image `url` result field
(`""` while not generated). -/
structure StoryboardFrame where
  frame_number : Nat
  shot_type : String
  camera_angle : String
  description : String
  background_id : String
  consistency_rules : String
  url : String
deriving DecidableEq

/-- The storyboard plan: `backgrounds` and `frames` arrays. -/
structure StoryboardPlan where
  backgrounds : List Background
  frames : List StoryboardFrame
deriving DecidableEq

/-! ## `callGemini` (JSON mode) and `planSequence` -/

/-- Outcome of one `callGemini(..., { json: true })` round trip, seen at the
point after the provider answered: a non-2xx response (the function throws
`Gemini Error: ...`), a body whose text `JSON.parse` rejects (the
`SyntaxError` propagates), or a successfully parsed value. -/
inductive GeminiResponse (α : Type) where
  | httpError (msg : String)
  | parseError (msg : String)
  | parsed (v : α)

/-- The error/return behaviour of `callGemini` with `json: true`, translated
from the source: it never inspects the parsed value. -/
def callGeminiJson {α : Type} : GeminiResponse α → Except String α
  | .httpError m => .error ("Gemini Error: " ++ m)
  | .parseError m => .error m
  | .parsed v => .ok v

/-- `planSequence` builds a prompt and returns `callGemini(contents,
{ json: true })` directly: the parsed payload is handed back with no
structural validation, no background-id resolution check, and no
error-type distinction beyond the message string. -/
def planSequence (resp : GeminiResponse StoryboardPlan) : Except String StoryboardPlan :=
  callGeminiJson resp

/-- Modelled from the spec: invariant 1 — every `frame.background_id`
names an entry of `plan.backgrounds`. Used only to state what validation
would have to establish; the source has no counterpart. -/
def backgroundIdsResolve (p : StoryboardPlan) : Bool :=
  p.frames.all (fun f => p.backgrounds.any (fun b => b.id = f.background_id))

/-- A plan whose only frame references a background id that is not in
`backgrounds`. -/
def unresolvedPlan : StoryboardPlan :=
  { backgrounds := [⟨"bg1", "an empty rain-soaked street"⟩]
    frames := [{ frame_number := 1, shot_type := "wide", camera_angle := "eye-level",
                 description := "subject walks into view", background_id := "bg9",
                 consistency_rules := "red coat", url := "" }] }

/-! ## The `plan` action of the edge function -/

/-- `Promise.all` over a list of settled outcomes: the first rejection (in
array order) rejects the whole combination, otherwise all values are
collected. -/
def promiseAll {α : Type} : List (Except String α) → Except String (List α)
  | [] => .ok []
  | Except.ok a :: rest =>
    match promiseAll rest with
    | .ok l => .ok (a :: l)
    | .error e => .error e
  | Except.error e :: _ => .error e

/-- The `action === 'plan'` branch of the request handler: analyze all
references with `Promise.all`, then plan the sequence from the analyzed
references. `analyses` holds the per-reference outcome of
`analyzeReference` (which has no internal try/catch, so a fetch or Gemini
failure is a rejection), `planOf` the outcome of `planSequence` given the
analyzed references. Any error propagates to the top-level catch, which
answers HTTP 500 with the message. -/
def planAction (analyses : List (Except String Reference))
    (planOf : List Reference → Except String StoryboardPlan) :
    Except String (StoryboardPlan × List Reference) :=
  match promiseAll analyses with
  | .error e => .error e
  | .ok refs =>
    match planOf refs with
    | .error e => .error e
    | .ok plan => .ok (plan, refs)

/-! ## The `generate_frame` action (server side) -/

/-- The payload of a Kie `createTask` request as composed by the edge
function. -/
structure KiePayload where
  prompt : String
  image_input : List String
  aspect_ratio : String
  resolution : String
  output_format : String
deriving DecidableEq

/-- `Array.prototype.join` with a separator. -/
def joinSep (sep : String) : List String → String
  | [] => ""
  | [a] => a
  | a :: b :: l => a ++ sep ++ joinSep sep (b :: l)

/-- The reference-role filter of `generateFrame`:
`r.type === 'character' || r.type === 'product'`. -/
def charProd (r : Reference) : Bool :=
  r.type = "character" || r.type = "product"

/-- The `charDesc` string of `generateFrame`: subject details composed from
character/product references only. -/
def charDescOf (refs : List Reference) : String :=
  joinSep " " ((refs.filter charProd).map (fun r =>
    "Subject details: " ++ r.description ++ ". Key features: " ++
      joinSep ", " r.key_features ++ "."))

/-- The prompt template of `generateFrame`, concatenated exactly as in the
source. -/
def promptOf (fp : StoryboardFrame) (refs : List Reference) (bgUrl : Option String)
    (style : String) : String :=
  "Cinematic shot, " ++ style ++ ". Shot type: " ++ fp.shot_type ++ ". Angle: " ++
    fp.camera_angle ++ ".\nScene: " ++ fp.description ++ ".\n" ++ charDescOf refs ++
    "\nConsistency: " ++ fp.consistency_rules ++ ". \nEnvironment context: " ++
    (if truthyOpt bgUrl then "Consistent with established background." else "") ++
    "\nPhotorealistic, movie still, 8k, highly detailed."

/-- `generateFrame(framePlan, refs, bgUrl, style)`: the Kie payload it
submits. `image_input` takes every reference with a truthy `url` — with no
role filter — and appends the background url when truthy. -/
def generateFrame (fp : StoryboardFrame) (refs : List Reference) (bgUrl : Option String)
    (style : String) : KiePayload :=
  let inputImages := (refs.filter (fun r => truthy r.url)).map (fun r => r.url)
  { prompt := promptOf fp refs bgUrl style
    image_input := if truthyOpt bgUrl then inputImages ++ [bgUrl.getD ""] else inputImages
    aspect_ratio := "16:9"
    resolution := "2K"
    output_format := "png" }

/-- The body the client sends with `action: 'generate_frame'`. -/
structure FrameRequest where
  frame_plan : StoryboardFrame
  all_references : List Reference
  bg_url : Option String
  anchor_image_url : Option String
  style : String
deriving DecidableEq

/-- The `action === 'generate_frame'` branch of the request handler: it
destructures only `frame_plan`, `all_references` and `bg_url` from the body
— `anchor_image_url` is never read — and calls `generateFrame`. -/
def serveGenerateFrame (req : FrameRequest) : KiePayload :=
  generateFrame req.frame_plan req.all_references req.bg_url req.style

/-! ## The client orchestrator (`StoryboardGrid.generateAll`, second
variant, with the anchor step; `PENDING_LIMIT` is the parameter `K`) -/

/-- Lookup in the `Record<string, string>` maps (`bgUrls`); `none` models
`undefined`. -/
def lookupUrl (m : List (String × String)) (k : String) : Option String :=
  (m.find? (fun p => p.1 = k)).map (fun p => p.2)

/-- The component state a `generateAll` run starts from. -/
structure GenInput where
  frames : List StoryboardFrame
  references : List Reference
  backgrounds : List Background
  consistency_rules : String
  bgUrls : List (String × String)
  anchorImageUrl : Option String

/-- The outcome of each provider invocation, as the environment of one run:
`some u` is a response whose `data.url` is present (possibly `""`, which
the client's `if (data?.url)` checks treat as falsy via `truthyRes`),
`none` is a thrown error or a response without a url. -/
structure Provider where
  anchorResult : Option String
  bgResult : String → Option String
  frameResult : Nat → Option String

/-- One `supabase.functions.invoke('cinema-popcorn', ...)` call issued by
the run, with the body it carries. -/
inductive Call where
  | createAnchor (prompt : String) (reference_urls : List String)
  | generateBackground (background_plan : Background)
  | generateFrame (req : FrameRequest)
deriving DecidableEq

/-- Step 1 of `generateAll`: create the anchor image unless
`anchorImageUrl` is already truthy; a failed call (or falsy `data?.url`)
is caught and leaves the anchor unchanged. Returns the `currentAnchorUrl`
used downstream and the calls issued. -/
def anchorStep (st : GenInput) (pv : Provider) : Option String × List Call :=
  if truthyOpt st.anchorImageUrl then
    (st.anchorImageUrl, [])
  else
    (match truthyRes pv.anchorResult with
     | some u => some u
     | none => st.anchorImageUrl,
     [Call.createAnchor
        (if truthy st.consistency_rules then st.consistency_rules
         else "Blue earbuds, high quality product visualization")
        ((st.references.filter (fun r => truthy r.url)).map (fun r => r.url))])

/-- Step 2 of `generateAll`: generate every background whose id has no
truthy entry in `bgUrls` yet; each failure is caught per background and
records nothing. Returns the updated `newBgUrls` map and the calls
issued. -/
def bgStep (bgUrls : List (String × String)) (bgs : List Background) (pv : Provider) :
    List (String × String) × List Call :=
  let todo := bgs.filter (fun b => !truthyOpt (lookupUrl bgUrls b.id))
  (bgUrls ++ todo.filterMap (fun b => (truthyRes (pv.bgResult b.id)).map (fun u => (b.id, u))),
   todo.map Call.generateBackground)

/-- The work queue of step 3: frame numbers of the frames without a truthy
`url`. -/
def frameQueue (frames : List StoryboardFrame) : List Nat :=
  (frames.filter (fun f => !truthy f.url)).map (fun f => f.frame_number)

/-- The `generate_frame` body `processFrame` sends for a found frame. -/
def mkFrameRequest (refs : List Reference) (bgMap : List (String × String))
    (anchor : Option String) (f : StoryboardFrame) : FrameRequest :=
  { frame_plan := f
    all_references := refs
    bg_url := lookupUrl bgMap f.background_id
    anchor_image_url := if truthyOpt anchor then anchor else none
    style := "Cinematic Realistic" }

/-- `processFrame(frameNum)`: look the frame up in the original `frames`
state (the closure is over the pre-run list), issue the request, and on a
truthy `data?.url` map the accumulated frame list, setting that frame
number's url; a thrown error is caught and changes nothing. -/
def processFrame (frames0 : List StoryboardFrame) (refs : List Reference)
    (bgMap : List (String × String)) (anchor : Option String) (pv : Provider)
    (acc : List StoryboardFrame × List Call) (n : Nat) :
    List StoryboardFrame × List Call :=
  match frames0.find? (fun f => f.frame_number = n) with
  | none => acc
  | some f =>
    match truthyRes (pv.frameResult n) with
    | some u =>
      (acc.1.map (fun g => if g.frame_number = n then { g with url := u } else g),
       acc.2 ++ [Call.generateFrame (mkFrameRequest refs bgMap anchor f)])
    | none =>
      (acc.1, acc.2 ++ [Call.generateFrame (mkFrameRequest refs bgMap anchor f)])

/-- `queue.slice(i, i + K)` batching of the frame loop, by fuel (the fuel is
instantiated with the queue length, which always suffices). -/
def chunksFuel (K : Nat) : Nat → List Nat → List (List Nat)
  | _, [] => []
  | 0, _ :: _ => []
  | fuel + 1, a :: l => (a :: l.take (K - 1)) :: chunksFuel K fuel (l.drop (K - 1))

/-- The list of batches `for (let i = 0; i < queue.length; i += K)`
produces. -/
def chunks (K : Nat) (l : List Nat) : List (List Nat) :=
  chunksFuel K l.length l

/-- Result of one `generateAll` run. -/
structure GenResult where
  anchor : Option String
  bgMap : List (String × String)
  frames : List StoryboardFrame
  calls : List Call
deriving DecidableEq

/-- The whole `generateAll` run (second variant): anchor step, background
step, then the batched frame loop over the work queue. The frames are
processed batch by batch in queue order; within a batch the completion
order is unspecified in the source, but every `processFrame(n)` reads only
the original frame list and writes only entries with frame number `n`, so
the canonical order used here produces the same calls and final state. -/
def generateAll (st : GenInput) (pv : Provider) (K : Nat) : GenResult :=
  let a := anchorStep st pv
  let b := bgStep st.bgUrls st.backgrounds pv
  let queue := (chunks K (frameQueue st.frames)).flatten
  let fr := queue.foldl (processFrame st.frames st.references b.1 a.1 pv) (st.frames, [])
  { anchor := a.1, bgMap := b.1, frames := fr.1, calls := a.2 ++ b.2 ++ fr.2 }

/-! ## Trace model of the batched frame loop (for the concurrency bound)

`Promise.all(batch.map(processFrame))` dispatches every member of the batch
and resolves only when each member has settled. A segment is any
interleaving of the members' dispatch/settle pairs; a run concatenates one
fully-settled segment per batch, in batch order — the concatenation point
is the `await` in the source. -/

/-- A scheduling event of the frame loop: a `generate_frame` request going
out, or settling (success or failure). -/
inductive Ev where
  | dispatch (n : Nat)
  | settle (n : Nat)
deriving DecidableEq

/-- `Inter toDispatch inflight tr`: `tr` is a possible event suffix of a
batch whose members in `toDispatch` are not yet dispatched and whose
members in `inflight` are dispatched but not settled. -/
inductive Inter : List Nat → List Nat → List Ev → Prop where
  | done : Inter [] [] []
  | disp {toDis infl tr} (n : Nat) (hn : n ∈ toDis) :
      Inter (toDis.erase n) (n :: infl) tr → Inter toDis infl (Ev.dispatch n :: tr)
  | stl {toDis infl tr} (n : Nat) (hn : n ∈ infl) :
      Inter toDis (infl.erase n) tr → Inter toDis infl (Ev.settle n :: tr)

/-- A run of the batched loop: one complete segment per batch, concatenated
in batch order. -/
inductive BatchRun : List (List Nat) → List Ev → Prop where
  | nil : BatchRun [] []
  | cons {b bs seg tr} : Inter b [] seg → BatchRun bs tr → BatchRun (b :: bs) (seg ++ tr)

/-- Net number of requests in flight after a list of events. -/
def flight : List Ev → Int
  | [] => 0
  | Ev.dispatch _ :: tr => flight tr + 1
  | Ev.settle _ :: tr => flight tr - 1

/-- `Starts pre whole`: `pre` is an initial segment of `whole` (the moments
at which the in-flight count is observed). -/
def Starts (pre whole : List Ev) : Prop := ∃ rest, whole = pre ++ rest

/-! ## Auxiliary predicates and concrete inputs used by the statements -/

/-- Recognises a `generate_frame` call for a given frame number. -/
def isFrameCallFor (N : Nat) (c : Call) : Bool :=
  match c with
  | Call.generateFrame req => req.frame_plan.frame_number == N
  | _ => false

/-- The per-entry effect of the whole frame loop on one entry of the frame
list (used to characterise the final state of `generateAll`). -/
def frameUpdate (frames0 : List StoryboardFrame) (pv : Provider) (queue : List Nat)
    (g : StoryboardFrame) : StoryboardFrame :=
  if g.frame_number ∈ queue ∧
      (frames0.find? (fun f => f.frame_number = g.frame_number)).isSome then
    match truthyRes (pv.frameResult g.frame_number) with
    | some u => { g with url := u }
    | none => g
  else g

/-- A pending frame plan. -/
def fpEx : StoryboardFrame :=
  { frame_number := 1, shot_type := "wide", camera_angle := "eye-level",
    description := "subject walks into view", background_id := "bg1",
    consistency_rules := "red coat", url := "" }

/-- An environment-role reference that carries a source url. -/
def refEnvEx : Reference :=
  { url := "https://img.example/env.png", type := "environment",
    description := "a forest", key_features := [] }

/-- A `generate_frame` body carrying an environment reference and an anchor
image url. -/
def frameReqEx : FrameRequest :=
  { frame_plan := fpEx, all_references := [refEnvEx], bg_url := none,
    anchor_image_url := some "https://img.example/anchor.png",
    style := "Cinematic Realistic" }

/-- A pending frame plan with a given number. -/
def mkFrame (n : Nat) : StoryboardFrame :=
  { frame_number := n, shot_type := "wide", camera_angle := "eye-level",
    description := "scene", background_id := "bg1", consistency_rules := "",
    url := "" }

/-- State with every entry already generated: the one frame and the one
background both hold urls. -/
def stDone : GenInput :=
  { frames := [{ fpEx with url := "https://img.example/f1.png" }]
    references := []
    backgrounds := [⟨"bg1", "street"⟩]
    consistency_rules := ""
    bgUrls := [("bg1", "https://img.example/bg.png")]
    anchorImageUrl := none }

/-- A provider on which every invocation fails. -/
def pvNone : Provider :=
  { anchorResult := none, bgResult := fun _ => none, frameResult := fun _ => none }

/-- State with six pending frames. -/
def stSix : GenInput :=
  { frames := [mkFrame 1, mkFrame 2, mkFrame 3, mkFrame 4, mkFrame 5, mkFrame 6]
    references := []
    backgrounds := []
    consistency_rules := ""
    bgUrls := []
    anchorImageUrl := none }

/-- A provider on which exactly the call for frame 3 fails. -/
def pvSix : Provider :=
  { anchorResult := none
    bgResult := fun _ => none
    frameResult := fun n => if n = 3 then none else some "https://img.example/frame.png" }

/-- State with one pending frame and one url-bearing environment
reference. -/
def stEnv : GenInput :=
  { frames := [fpEx], references := [refEnvEx], backgrounds := []
    consistency_rules := "", bgUrls := [], anchorImageUrl := none }

/-- The `generate_frame` body issued for `fpEx` in a run over `stEnv` with
no anchor and no resolved background. -/
def frameReqW : FrameRequest :=
  { frame_plan := fpEx, all_references := [refEnvEx], bg_url := none,
    anchor_image_url := none, style := "Cinematic Realistic" }

/-- Three pending frames, for the concrete batched trace. -/
def framesThree : List StoryboardFrame := [mkFrame 1, mkFrame 2, mkFrame 3]

/-- A trace of the batched loop over `framesThree` with `K = 2`: batch
`[1, 2]` fully settles before frame 3 is dispatched. -/
def trW : List Ev :=
  [Ev.dispatch 1, Ev.dispatch 2, Ev.settle 2, Ev.settle 1, Ev.dispatch 3, Ev.settle 3]

end Popcorn

namespace Popcorn

/-- On the all-non-2xx stream every iteration takes the `continue` branch,
so `attempts` is never incremented and no amount of fuel finishes the loop. -/
theorem pollLoop_allNotOk (fuel polls : Nat) :
    pollLoop allNotOk fuel polls 0 = KieOutcome.fuelOut := by
  induction fuel generalizing polls with
  | zero => rfl
  | succ n ih => simpa [pollLoop, iterBody, allNotOk] using ih (polls + 1)

/-- Streams on which every iteration increments `attempts` (every response
is either a swallowed throw or a fall-through) drive the loop to the
timeout throw once the attempt budget is spent. -/
theorem pollLoop_incrementing (poll : Nat → PollResponse)
    (h : ∀ i, (∃ m, iterBody (poll i) = IterStep.thrown m) ∨
         iterBody (poll i) = IterStep.fallthru) :
    ∀ k, k ≤ 30 → ∀ extra polls, pollLoop poll (extra + k + 1) polls (30 - k) =
      KieOutcome.err "Kie Task Timeout (60s)" := by
  intro k
  induction k with
  | zero =>
    intro _ extra polls
    simp [pollLoop]
  | succ n ih =>
    intro hk extra polls
    have hlt : 30 - (n + 1) < 30 := by omega
    have hstep : 30 - (n + 1) + 1 = 30 - n := by omega
    have hrec := ih (by omega) extra (polls + 1)
    rcases h polls with ⟨m, hp⟩ | hp <;>
      simp only [pollLoop, if_pos hlt, hp, hstep] <;> exact hrec

/-- On an always-`fail` stream every iteration throws, the throw is caught
and counted, and the loop result is confined to fuel exhaustion or the
timeout error — the thrown provider-failure message never escapes. -/
theorem pollLoop_allFail_cases (fuel polls attempts : Nat) :
    pollLoop allFail fuel polls attempts = KieOutcome.fuelOut ∨
    pollLoop allFail fuel polls attempts = KieOutcome.err "Kie Task Timeout (60s)" := by
  induction fuel generalizing polls attempts with
  | zero => exact Or.inl rfl
  | succ n ih =>
    by_cases h : attempts < 30
    · simpa [pollLoop, iterBody, allFail, h] using ih (polls + 1) (attempts + 1)
    · simp [pollLoop, h]

/-- Inversion of the `return` branch: the loop body only returns a url when
the response has state `success` and a parsed, non-empty `resultUrls` list
whose head is that url. -/
theorem iterBody_ret (r : PollResponse) (u : String) (h : iterBody r = IterStep.ret u) :
    ∃ rest fm, r = PollResponse.body "success" (some (u :: rest)) fm := by
  cases r with
  | notOk => simp [iterBody] at h
  | netThrow => simp [iterBody] at h
  | body st urls fm =>
    by_cases hs : st = "success"
    · subst hs
      cases urls with
      | none => simp [iterBody] at h
      | some l =>
        cases l with
        | nil => simp [iterBody] at h
        | cons a rest =>
          simp [iterBody] at h
          exact ⟨rest, fm, by rw [h]⟩
    · by_cases hf : st = "fail" <;> simp [iterBody, hs, hf] at h

/-- Whenever the poll loop returns normally, its url is the head of a
non-empty `resultUrls` list coming from a poll response in state
`success`. -/
theorem pollLoop_ok (poll : Nat → PollResponse) (fuel polls attempts : Nat) (u : String)
    (h : pollLoop poll fuel polls attempts = KieOutcome.ok u) :
    ∃ i rest fm, poll i = PollResponse.body "success" (some (u :: rest)) fm := by
  induction fuel generalizing polls attempts with
  | zero => simp [pollLoop] at h
  | succ n ih =>
    by_cases ha : attempts < 30
    · rcases hstep : iterBody (poll polls) with u' | m | _ | _ <;>
        simp only [pollLoop, if_pos ha, hstep] at h
      · injection h with hu
        subst hu
        obtain ⟨rest, fm, hr⟩ := iterBody_ret _ _ hstep
        exact ⟨polls, rest, fm, hr⟩
      · exact ih (polls + 1) (attempts + 1) h
      · exact ih (polls + 1) attempts h
      · exact ih (polls + 1) (attempts + 1) h
    · simp only [pollLoop, if_neg ha] at h
      exact absurd h (by simp)

/-- The first rejection in a `Promise.all` input rejects the whole
combination. -/
theorem promiseAll_error {α : Type} (l : List (Except String α)) (e : String)
    (h : Except.error e ∈ l) : ∃ e2, promiseAll l = Except.error e2 := by
  induction l with
  | nil => cases h
  | cons a rest ih =>
    cases a with
    | error e3 => exact ⟨e3, rfl⟩
    | ok v =>
      have h2 : Except.error e ∈ rest := by
        rcases List.mem_cons.mp h with h3 | h3
        · cases h3
        · exact h3
      obtain ⟨e2, h4⟩ := ih h2
      exact ⟨e2, by simp [promiseAll, h4]⟩

/-! ## Structure of a `generateAll` run -/

/-- With enough fuel, flattening the batches gives back the queue. -/
theorem chunksFuel_flatten (K : Nat) :
    ∀ fuel (l : List Nat), l.length ≤ fuel → (chunksFuel K fuel l).flatten = l := by
  intro fuel
  induction fuel with
  | zero =>
    intro l h
    cases l with
    | nil => rfl
    | cons a l => simp at h
  | succ n ih =>
    intro l h
    cases l with
    | nil => rfl
    | cons a l =>
      have hd : (l.drop (K - 1)).length ≤ n := by
        simp only [List.length_drop]
        simp only [List.length_cons] at h
        omega
      simp only [chunksFuel, List.flatten_cons, ih (l.drop (K - 1)) hd, List.cons_append,
        List.take_append_drop]

/-- The batches of the frame loop cover exactly the work queue. -/
theorem chunks_flatten (K : Nat) (l : List Nat) : (chunks K l).flatten = l :=
  chunksFuel_flatten K l.length l le_rfl

/-- The calls collected by the frame loop: one `generate_frame` call per
queue entry that resolves in the original frame list, in queue order,
independent of the provider's results. -/
theorem foldl_processFrame_calls (frames0 : List StoryboardFrame) (refs : List Reference)
    (bgMap : List (String × String)) (anchor : Option String) (pv : Provider) :
    ∀ (queue : List Nat) (fs : List StoryboardFrame) (cs : List Call),
    (queue.foldl (processFrame frames0 refs bgMap anchor pv) (fs, cs)).2 =
      cs ++ queue.filterMap (fun n => (frames0.find? (fun f => f.frame_number = n)).map
        (fun f => Call.generateFrame (mkFrameRequest refs bgMap anchor f))) := by
  intro queue
  induction queue with
  | nil => intro fs cs; simp
  | cons n rest ih =>
    intro fs cs
    simp only [List.foldl_cons]
    cases hf : frames0.find? (fun f => f.frame_number = n) with
    | none =>
      rw [List.filterMap_cons_none (by rw [hf]; rfl)]
      simp only [processFrame, hf]
      exact ih fs cs
    | some f =>
      rw [List.filterMap_cons_some (by rw [hf]; rfl)]
      cases hr : truthyRes (pv.frameResult n) with
      | some u =>
        simp only [processFrame, hf, hr, ih]
        simp
      | none =>
        simp only [processFrame, hf, hr, ih]
        simp

/-- The final frame list of the frame loop: each entry of the starting list
is updated by `frameUpdate` — its url is set exactly when its number is
queued, resolvable, and its own provider call returned a truthy url. -/
theorem foldl_processFrame_frames (frames0 : List StoryboardFrame) (refs : List Reference)
    (bgMap : List (String × String)) (anchor : Option String) (pv : Provider) :
    ∀ (queue : List Nat) (fs : List StoryboardFrame) (cs : List Call),
    (queue.foldl (processFrame frames0 refs bgMap anchor pv) (fs, cs)).1 =
      fs.map (frameUpdate frames0 pv queue) := by
  intro queue
  induction queue with
  | nil =>
    intro fs cs
    have h1 : frameUpdate frames0 pv [] = fun g => g := by
      funext g
      simp [frameUpdate]
    rw [h1]
    simp
  | cons n rest ih =>
    intro fs cs
    simp only [List.foldl_cons]
    cases hf : frames0.find? (fun f => f.frame_number = n) with
    | none =>
      have h1 : frameUpdate frames0 pv (n :: rest) = frameUpdate frames0 pv rest := by
        funext g
        by_cases hg : g.frame_number = n
        · simp [frameUpdate, hg, hf]
        · simp [frameUpdate, List.mem_cons, hg]
      simp only [processFrame, hf, h1]
      exact ih fs cs
    | some f =>
      cases hr : truthyRes (pv.frameResult n) with
      | some u =>
        simp only [processFrame, hf, hr, ih, List.map_map]
        have h1 : (frameUpdate frames0 pv rest ∘ fun g =>
            if g.frame_number = n then { g with url := u } else g) =
            frameUpdate frames0 pv (n :: rest) := by
          funext g
          by_cases hg : g.frame_number = n
          · by_cases hm : n ∈ rest
            · simp [frameUpdate, Function.comp, hg, hf, hr, hm]
            · simp [frameUpdate, Function.comp, hg, hf, hr, hm]
          · simp [frameUpdate, Function.comp, hg, List.mem_cons]
        rw [h1]
      | none =>
        have h1 : frameUpdate frames0 pv (n :: rest) = frameUpdate frames0 pv rest := by
          funext g
          by_cases hg : g.frame_number = n
          · simp [frameUpdate, hg, hf, hr]
          · simp [frameUpdate, List.mem_cons, hg]
        simp only [processFrame, hf, hr, h1]
        exact ih fs (cs ++ [Call.generateFrame (mkFrameRequest refs bgMap anchor f)])

/-- The calls of a whole `generateAll` run, split into the three steps. -/
theorem generateAll_calls (st : GenInput) (pv : Provider) (K : Nat) :
    (generateAll st pv K).calls =
      (anchorStep st pv).2 ++ ((bgStep st.bgUrls st.backgrounds pv).2 ++
        (frameQueue st.frames).filterMap (fun n =>
          (st.frames.find? (fun f => f.frame_number = n)).map
            (fun f => Call.generateFrame
              (mkFrameRequest st.references (bgStep st.bgUrls st.backgrounds pv).1
                (anchorStep st pv).1 f)))) := by
  simp only [generateAll, chunks_flatten, foldl_processFrame_calls]
  simp

/-- The final frame list of a whole `generateAll` run. -/
theorem generateAll_frames (st : GenInput) (pv : Provider) (K : Nat) :
    (generateAll st pv K).frames =
      st.frames.map (frameUpdate st.frames pv (frameQueue st.frames)) := by
  simp only [generateAll, chunks_flatten, foldl_processFrame_frames]

/-- The background map of a whole `generateAll` run. -/
theorem generateAll_bgMap (st : GenInput) (pv : Provider) (K : Nat) :
    (generateAll st pv K).bgMap = (bgStep st.bgUrls st.backgrounds pv).1 := rfl

/-- Any call issued by the anchor step is a `create_anchor_image` call. -/
theorem anchorStep_calls (st : GenInput) (pv : Provider) (c : Call)
    (h : c ∈ (anchorStep st pv).2) : ∃ p us, c = Call.createAnchor p us := by
  by_cases ha : truthyOpt st.anchorImageUrl
  · simp [anchorStep, ha] at h
  · simp [anchorStep, ha] at h
    exact ⟨_, _, h⟩

/-- Any call issued by the background step is a `generate_background` call
for a background whose id has no truthy entry in the incoming map. -/
theorem bgStep_calls (bgUrls : List (String × String)) (bgs : List Background)
    (pv : Provider) (c : Call) (h : c ∈ (bgStep bgUrls bgs pv).2) :
    ∃ b, b ∈ bgs ∧ truthyOpt (lookupUrl bgUrls b.id) = false ∧
      c = Call.generateBackground b := by
  simp only [bgStep, List.mem_map, List.mem_filter] at h
  obtain ⟨b, ⟨hb, hb2⟩, hc⟩ := h
  exact ⟨b, hb, by simpa using hb2, hc.symm⟩

/-- Membership characterisation of the frame-loop calls. -/
theorem mem_frameCalls (frames0 : List StoryboardFrame) (refs : List Reference)
    (bgMap : List (String × String)) (anchor : Option String)
    (queue : List Nat) (c : Call) :
    c ∈ queue.filterMap (fun n => (frames0.find? (fun f => f.frame_number = n)).map
        (fun f => Call.generateFrame (mkFrameRequest refs bgMap anchor f))) ↔
    ∃ n ∈ queue, ∃ f, frames0.find? (fun g => g.frame_number = n) = some f ∧
      c = Call.generateFrame (mkFrameRequest refs bgMap anchor f) := by
  simp only [List.mem_filterMap, Option.map_eq_some']
  constructor
  · rintro ⟨n, hn, f, hf, hc⟩
    exact ⟨n, hn, f, hf, hc.symm⟩
  · rintro ⟨n, hn, f, hf, hc⟩
    exact ⟨n, hn, f, hf, hc.symm⟩

/-- Counting the frame-loop calls for one frame number: when every queued
number resolves in the original frame list, the number of `generate_frame`
calls for `N` equals the number of occurrences of `N` in the queue. -/
theorem frameCalls_count (frames0 : List StoryboardFrame) (refs : List Reference)
    (bgMap : List (String × String)) (anchor : Option String) (N : Nat) :
    ∀ (queue : List Nat),
    (∀ n ∈ queue, (frames0.find? (fun f => f.frame_number = n)).isSome = true) →
    ((queue.filterMap (fun n => (frames0.find? (fun f => f.frame_number = n)).map
        (fun f => Call.generateFrame (mkFrameRequest refs bgMap anchor f)))).filter
      (isFrameCallFor N)).length = queue.count N := by
  intro queue
  induction queue with
  | nil => intro _; simp
  | cons n rest ih =>
    intro h
    obtain ⟨f, hf⟩ := Option.isSome_iff_exists.mp (h n (by simp))
    have hnum : f.frame_number = n := by
      have h2 := List.find?_some hf
      exact of_decide_eq_true h2
    rw [List.filterMap_cons_some (by rw [hf]; rfl)]
    have hrest := ih (fun m hm => h m (by simp [hm]))
    by_cases hN : n = N
    · subst hN
      rw [List.filter_cons_of_pos (by simp [isFrameCallFor, mkFrameRequest, hnum])]
      simp [hrest, List.count_cons_self]
    · rw [List.filter_cons_of_neg (by simp [isFrameCallFor, mkFrameRequest, hnum, hN])]
      rw [hrest, List.count_cons_of_ne (fun h2 => hN h2.symm)]

/-- The work queue is duplicate-free whenever the frame numbers are. -/
theorem frameQueue_nodup (frames : List StoryboardFrame)
    (hnd : (frames.map (fun f => f.frame_number)).Nodup) :
    (frameQueue frames).Nodup := by
  have hsub : ((frames.filter (fun f => !truthy f.url)).map
      (fun f => f.frame_number)).Sublist (frames.map (fun f => f.frame_number)) :=
    (List.filter_sublist frames).map (fun f => f.frame_number)
  exact hnd.sublist hsub

/-- Membership in the work queue. -/
theorem mem_frameQueue (frames : List StoryboardFrame) (n : Nat) :
    n ∈ frameQueue frames ↔
    ∃ f ∈ frames, f.url = "" ∧ f.frame_number = n := by
  simp only [frameQueue, List.mem_map, List.mem_filter]
  constructor
  · rintro ⟨f, ⟨hf, hurl⟩, hn⟩
    refine ⟨f, hf, ?_, hn⟩
    simpa [truthy] using hurl
  · rintro ⟨f, hf, hurl, hn⟩
    exact ⟨f, ⟨hf, by simp [truthy, hurl]⟩, hn⟩

/-! ## Claim theorems: the poller -/

/-- C2. The claim says an unbounded run of non-2xx status responses still
exhausts the 30-attempt budget and yields Timeout. On the code this fails:
the `continue` taken on `!statusRes.ok` skips the `attempts++` at the
bottom of the loop body, so on an all-non-2xx stream the counter never
moves and no number of loop iterations brings the poll loop to any
terminal outcome of {Success, ProviderFailure, Timeout} — contradicting
the code's own `Poll Status (Max 60s)` comment and timeout message. -/
theorem claim_C2_nonok_stream_never_terminates :
    ∀ fuel, generateWithKie allNotOk fuel = KieOutcome.fuelOut :=
  fun fuel => pollLoop_allNotOk fuel 0

/-- C3. The claim says a poll response in the provider's failed state makes
`generateWithKie` terminate with ProviderFailure, distinct from Timeout,
without polling out the budget. On the code this fails: the
`throw new Error('Kie Task Failed: ...')` sits inside the same `try` whose
`catch` only logs, so the provider-failure throw is swallowed, polling
continues, and an always-`fail` task ends in the timeout throw — the
provider-failure error never escapes the function. -/
theorem claim_C3_provider_fail_swallowed_times_out :
    generateWithKie allFail 31 = KieOutcome.err "Kie Task Timeout (60s)" ∧
    ∀ fuel, generateWithKie allFail fuel ≠
      KieOutcome.err ("Kie Task Failed: " ++ "boom") := by
  constructor
  · exact pollLoop_incrementing allFail (fun i => Or.inl ⟨_, rfl⟩) 30 le_rfl 0 0
  · intro fuel h
    rcases pollLoop_allFail_cases fuel 0 0 with h2 | h2
    · exact absurd (h.symm.trans h2) (by decide)
    · exact absurd (h.symm.trans h2) (by decide)

/-- C8. The poll budget boundary is exactly 30 attempts: a task reporting
waiting for 29 polls and success on the 30th yields the success url, and a
task reporting waiting on every poll ends in the timeout throw (for any
amount of fuel beyond the 31 iterations the loop needs), never a url. -/
theorem claim_C8_poll_budget_boundary :
    generateWithKie wait29ThenSuccess 30 = KieOutcome.ok "https://img.example/out.png" ∧
    ∀ extra, generateWithKie allWaiting (31 + extra) =
      KieOutcome.err "Kie Task Timeout (60s)" := by
  constructor
  · decide
  · intro extra
    have h := pollLoop_incrementing allWaiting (fun i => Or.inr rfl) 30 le_rfl extra 0
    have e1 : extra + 30 + 1 = 31 + extra := by omega
    rw [e1] at h
    exact h

/-- C10. Whenever `generateWithKie` returns a url (rather than throwing),
that url is the first element of a non-empty `resultUrls` list taken from a
poll response whose state is `success`; no url is ever returned for a task
that did not report success, or from a success response with an empty or
missing `resultUrls` list. -/
theorem claim_C10_success_url_provenance (poll : Nat → PollResponse) (fuel : Nat)
    (u : String) (h : generateWithKie poll fuel = KieOutcome.ok u) :
    ∃ i rest fm, poll i = PollResponse.body "success" (some (u :: rest)) fm :=
  pollLoop_ok poll fuel 0 0 u h

/-- Witness for C10 at a concrete stream whose first poll already reports
success with two result urls. -/
theorem claim_C10_success_url_provenance_witness :
    generateWithKie
        (fun _ => PollResponse.body "success"
          (some ["https://img.example/a.png", "https://img.example/b.png"]) none) 1 =
      KieOutcome.ok "https://img.example/a.png" ∧
    ∃ i rest fm,
      (fun _ => PollResponse.body "success"
          (some ["https://img.example/a.png", "https://img.example/b.png"]) none :
        Nat → PollResponse) i =
        PollResponse.body "success" (some ("https://img.example/a.png" :: rest)) fm :=
  ⟨rfl, claim_C10_success_url_provenance _ 1 _ rfl⟩

/-! ## Claim theorems: the plan action -/

/-- C1 counterexample. With a batch of two references whose first analysis
fails, the plan action rejects as a whole: the failing reference is not
marked unusable, the second reference's analysis is not returned, and the
action aborts with the error — falsifying the claim that a failure is
scoped to one reference. -/
theorem claim_C1_counterexample :
    planAction [Except.error "fetch failed", Except.ok refEnvEx]
        (fun _ => Except.ok unresolvedPlan) =
      Except.error "fetch failed" := rfl

/-- C1 amended: a transport or parse failure while analyzing any one
reference rejects the whole `Promise.all`, so the plan action aborts with
an error response; no reference is marked unusable and no partial analysis
results are returned. -/
theorem claim_C1_amended (analyses : List (Except String Reference))
    (planOf : List Reference → Except String StoryboardPlan) (e : String)
    (h : Except.error e ∈ analyses) :
    ∃ e2, planAction analyses planOf = Except.error e2 := by
  obtain ⟨e2, h2⟩ := promiseAll_error analyses e h
  exact ⟨e2, by simp [planAction, h2]⟩

/-- Witness for the amended C1 at a concrete batch. -/
theorem claim_C1_amended_witness :
    (Except.error "boom" ∈ [Except.error "boom", Except.ok refEnvEx]) ∧
    ∃ e2, planAction [Except.error "boom", Except.ok refEnvEx]
        (fun _ => Except.ok unresolvedPlan) = Except.error e2 :=
  ⟨by simp, claim_C1_amended _ _ "boom" (by simp)⟩

/-! ## Claim theorems: planSequence -/

/-- C6 counterexample. A parsed provider payload whose only frame
references the background id `bg9`, absent from `plan.backgrounds`, is
returned by `planSequence` unchanged and without error — falsifying the
claim that the plan is structurally validated (invariant 1) before being
returned. -/
theorem claim_C6_counterexample :
    planSequence (GeminiResponse.parsed unresolvedPlan) = Except.ok unresolvedPlan ∧
    backgroundIdsResolve unresolvedPlan = false :=
  ⟨rfl, by decide⟩

/-! ## Claim theorems: the client orchestrator -/

/-- C5. Idempotent resume: a background whose id already has a truthy entry
in the url map gets no `generate_background` call; a frame that already
holds a non-empty url gets no `generate_frame` call; and when every entry
already holds a url, every call the run makes (if any) is the anchor call —
no background or frame provider call at all. -/
theorem claim_C5_idempotent_resume (st : GenInput) (pv : Provider) (K : Nat)
    (hnd : (st.frames.map (fun f => f.frame_number)).Nodup) :
    (∀ b ∈ st.backgrounds, truthyOpt (lookupUrl st.bgUrls b.id) = true →
       Call.generateBackground b ∉ (generateAll st pv K).calls) ∧
    (∀ f ∈ st.frames, f.url ≠ "" → ∀ req,
       Call.generateFrame req ∈ (generateAll st pv K).calls →
       req.frame_plan.frame_number ≠ f.frame_number) ∧
    ((∀ f ∈ st.frames, f.url ≠ "") →
     (∀ b ∈ st.backgrounds, truthyOpt (lookupUrl st.bgUrls b.id) = true) →
     ∀ c ∈ (generateAll st pv K).calls, ∃ p us, c = Call.createAnchor p us) := by
  refine ⟨?_, ?_, ?_⟩
  · intro b hb htr hmem
    rw [generateAll_calls] at hmem
    rcases List.mem_append.mp hmem with h1 | h1
    · obtain ⟨p, us, hc⟩ := anchorStep_calls st pv _ h1
      simp at hc
    · rcases List.mem_append.mp h1 with h2 | h2
      · obtain ⟨b2, _, hfalse, hc⟩ := bgStep_calls _ _ _ _ h2
        injection hc with hbb
        subst hbb
        exact absurd (htr.symm.trans hfalse) (by decide)
      · rw [mem_frameCalls] at h2
        obtain ⟨n, hn, f, hfind, hc⟩ := h2
        simp at hc
  · intro f hf hurl req hmem
    rw [generateAll_calls] at hmem
    rcases List.mem_append.mp hmem with h1 | h1
    · obtain ⟨p, us, hc⟩ := anchorStep_calls st pv _ h1
      simp at hc
    · rcases List.mem_append.mp h1 with h2 | h2
      · obtain ⟨b2, _, _, hc⟩ := bgStep_calls _ _ _ _ h2
        simp at hc
      · rw [mem_frameCalls] at h2
        obtain ⟨n, hn, f2, hfind, hc⟩ := h2
        have hnum : f2.frame_number = n := by
          have h3 := List.find?_some hfind
          simpa using h3
        intro heq
        injection hc with hreq
        rw [hreq] at heq
        simp only [mkFrameRequest] at heq
        obtain ⟨g, hg, hgurl, hgn⟩ := (mem_frameQueue st.frames n).mp hn
        have hgf : g = f :=
          List.inj_on_of_nodup_map hnd hg hf (by rw [hgn, ← heq, hnum])
        rw [hgf] at hgurl
        exact hurl hgurl
  · intro hall hballs c hmem
    have hq : frameQueue st.frames = [] := by
      unfold frameQueue
      have h1 : st.frames.filter (fun f => !truthy f.url) = [] := by
        rw [List.filter_eq_nil_iff]
        intro f hf
        simp [truthy, hall f hf]
      rw [h1]
      rfl
    have hbg : (bgStep st.bgUrls st.backgrounds pv).2 = [] := by
      have h2 : st.backgrounds.filter
          (fun b => !truthyOpt (lookupUrl st.bgUrls b.id)) = [] := by
        rw [List.filter_eq_nil_iff]
        intro b hb
        simp [hballs b hb]
      simp [bgStep, h2]
    rw [generateAll_calls, hq, hbg] at hmem
    simp only [List.filterMap_nil, List.append_nil, List.nil_append] at hmem
    exact anchorStep_calls st pv c hmem

/-- Witness for C5 at a state where the one frame and the one background
both already hold urls. -/
theorem claim_C5_idempotent_resume_witness :
    ((stDone.frames.map (fun f => f.frame_number)).Nodup) ∧
    ((∀ b ∈ stDone.backgrounds, truthyOpt (lookupUrl stDone.bgUrls b.id) = true →
       Call.generateBackground b ∉ (generateAll stDone pvNone 2).calls) ∧
    (∀ f ∈ stDone.frames, f.url ≠ "" → ∀ req,
       Call.generateFrame req ∈ (generateAll stDone pvNone 2).calls →
       req.frame_plan.frame_number ≠ f.frame_number) ∧
    ((∀ f ∈ stDone.frames, f.url ≠ "") →
     (∀ b ∈ stDone.backgrounds, truthyOpt (lookupUrl stDone.bgUrls b.id) = true) →
     ∀ c ∈ (generateAll stDone pvNone 2).calls, ∃ p us, c = Call.createAnchor p us)) :=
  ⟨by decide, claim_C5_idempotent_resume stDone pvNone 2 (by decide)⟩

/-- C7. Partial-failure isolation in one run: every frame without a url is
attempted exactly once (one `generate_frame` call for its number, whatever
the provider does on any other unit), and a pending frame whose own
provider call yields a truthy url ends up holding that url in the final
state, regardless of failures of sibling frames, backgrounds or the anchor;
the run itself is a total function and raises no sequence-level error. -/
theorem claim_C7_partial_failure_isolation (st : GenInput) (pv : Provider) (K : Nat)
    (hnd : (st.frames.map (fun f => f.frame_number)).Nodup) :
    (∀ f ∈ st.frames, f.url = "" →
       ((generateAll st pv K).calls.filter (isFrameCallFor f.frame_number)).length = 1) ∧
    (∀ f ∈ st.frames, f.url = "" → ∀ u, truthyRes (pv.frameResult f.frame_number) = some u →
       ∃ f2 ∈ (generateAll st pv K).frames,
         f2.frame_number = f.frame_number ∧ f2.url = u) := by
  constructor
  · intro f hf hurl
    rw [generateAll_calls, List.filter_append, List.filter_append,
      List.length_append, List.length_append]
    have ha : ((anchorStep st pv).2.filter (isFrameCallFor f.frame_number)).length = 0 := by
      rw [List.length_eq_zero, List.filter_eq_nil_iff]
      intro c hc
      obtain ⟨p, us, hc2⟩ := anchorStep_calls st pv c hc
      subst hc2
      simp [isFrameCallFor]
    have hb : ((bgStep st.bgUrls st.backgrounds pv).2.filter
        (isFrameCallFor f.frame_number)).length = 0 := by
      rw [List.length_eq_zero, List.filter_eq_nil_iff]
      intro c hc
      obtain ⟨b2, _, _, hc2⟩ := bgStep_calls _ _ _ _ hc
      subst hc2
      simp [isFrameCallFor]
    have hfr := frameCalls_count st.frames st.references
      (bgStep st.bgUrls st.backgrounds pv).1 (anchorStep st pv).1 f.frame_number
      (frameQueue st.frames)
      (fun n hn => by
        obtain ⟨g, hg, hgurl, hgn⟩ := (mem_frameQueue st.frames n).mp hn
        exact List.find?_isSome.mpr ⟨g, hg, by simp [hgn]⟩)
    have hcount : (frameQueue st.frames).count f.frame_number = 1 :=
      List.count_eq_one_of_mem (frameQueue_nodup st.frames hnd)
        ((mem_frameQueue st.frames f.frame_number).mpr ⟨f, hf, hurl, rfl⟩)
    rw [ha, hb, hfr, hcount]
  · intro f hf hurl u hu
    rw [generateAll_frames]
    have hq : f.frame_number ∈ frameQueue st.frames :=
      (mem_frameQueue st.frames f.frame_number).mpr ⟨f, hf, hurl, rfl⟩
    have hsome : (st.frames.find? (fun g => g.frame_number = f.frame_number)).isSome =
        true := List.find?_isSome.mpr ⟨f, hf, by simp⟩
    refine ⟨frameUpdate st.frames pv (frameQueue st.frames) f,
      List.mem_map_of_mem _ hf, ?_, ?_⟩
    · simp [frameUpdate, hq, hsome, hu]
    · simp [frameUpdate, hq, hsome, hu]

/-- Witness for C7: six pending frames on a provider that fails exactly
frame 3. -/
theorem claim_C7_partial_failure_isolation_witness :
    ((stSix.frames.map (fun f => f.frame_number)).Nodup) ∧
    ((∀ f ∈ stSix.frames, f.url = "" →
       ((generateAll stSix pvSix 2).calls.filter (isFrameCallFor f.frame_number)).length = 1) ∧
    (∀ f ∈ stSix.frames, f.url = "" → ∀ u,
       truthyRes (pvSix.frameResult f.frame_number) = some u →
       ∃ f2 ∈ (generateAll stSix pvSix 2).frames,
         f2.frame_number = f.frame_number ∧ f2.url = u)) :=
  ⟨by decide, claim_C7_partial_failure_isolation stSix pvSix 2 (by decide)⟩

/-! ## Claim theorems: the composed generate_frame request -/

/-- C9 counterexample. A request whose only reference has role
`environment` (and carries a url) together with a present anchor url:
the Kie payload carries the environment reference's url even though the
character/product filter selects nothing, and the payload is unchanged
when the anchor url is removed — the `generate_frame` action never reads
it. This falsifies the claim that the request carries only
character/product references and carries the anchor image url. -/
theorem claim_C9_counterexample :
    (serveGenerateFrame frameReqEx).image_input = ["https://img.example/env.png"] ∧
    frameReqEx.all_references.filter charProd = [] ∧
    serveGenerateFrame frameReqEx =
      serveGenerateFrame { frameReqEx with anchor_image_url := none } :=
  ⟨by decide, by decide, rfl⟩

/-- C9 amended: every `generate_frame` request issued by the pipeline
carries the whole reference list and the background url resolved from the
run's map for the frame's own `background_id`; in the composed provider
payload, the prompt carries the frame description, shot type and camera
angle and its subject details use only character/product references, but
`image_input` carries every reference with a truthy url regardless of
role, plus the truthy background url; the anchor image url sent by the
client is ignored by the server action. -/
theorem claim_C9_amended (st : GenInput) (pv : Provider) (K : Nat) (req : FrameRequest)
    (h : Call.generateFrame req ∈ (generateAll st pv K).calls) :
    req.all_references = st.references ∧
    req.bg_url = lookupUrl (generateAll st pv K).bgMap req.frame_plan.background_id ∧
    (serveGenerateFrame req).image_input =
      (req.all_references.filter (fun r => truthy r.url)).map (fun r => r.url) ++
        (if truthyOpt req.bg_url then [req.bg_url.getD ""] else []) ∧
    promptOf req.frame_plan req.all_references req.bg_url req.style =
      promptOf req.frame_plan (req.all_references.filter charProd) req.bg_url req.style ∧
    serveGenerateFrame req = serveGenerateFrame { req with anchor_image_url := none } ∧
    (∃ x y, (serveGenerateFrame req).prompt = x ++ (req.frame_plan.description ++ y)) ∧
    (∃ x y, (serveGenerateFrame req).prompt = x ++ (req.frame_plan.shot_type ++ y)) ∧
    (∃ x y, (serveGenerateFrame req).prompt = x ++ (req.frame_plan.camera_angle ++ y)) := by
  rw [generateAll_calls] at h
  have hshape : ∃ f, req = mkFrameRequest st.references
      (bgStep st.bgUrls st.backgrounds pv).1 (anchorStep st pv).1 f := by
    rcases List.mem_append.mp h with h1 | h1
    · obtain ⟨p, us, hc⟩ := anchorStep_calls st pv _ h1
      simp at hc
    · rcases List.mem_append.mp h1 with h2 | h2
      · obtain ⟨b2, _, _, hc⟩ := bgStep_calls _ _ _ _ h2
        simp at hc
      · rw [mem_frameCalls] at h2
        obtain ⟨n, hn, f, hfind, hc⟩ := h2
        injection hc with hreq
        exact ⟨f, hreq⟩
  obtain ⟨f, hreq⟩ := hshape
  subst hreq
  refine ⟨rfl, rfl, ?_, ?_, rfl, ?_, ?_, ?_⟩
  · by_cases hbg : truthyOpt (lookupUrl (bgStep st.bgUrls st.backgrounds pv).1
        f.background_id) = true
    · simp [serveGenerateFrame, generateFrame, mkFrameRequest, hbg]
    · simp [serveGenerateFrame, generateFrame, mkFrameRequest, hbg]
  · simp [promptOf, charDescOf, mkFrameRequest, List.filter_filter, Bool.and_self]
  · exact ⟨"Cinematic shot, " ++ "Cinematic Realistic" ++ ". Shot type: " ++
        f.shot_type ++ ". Angle: " ++ f.camera_angle ++ ".\nScene: ",
      ".\n" ++ charDescOf st.references ++ "\nConsistency: " ++ f.consistency_rules ++
        ". \nEnvironment context: " ++
        (if truthyOpt (lookupUrl (bgStep st.bgUrls st.backgrounds pv).1
            f.background_id) then "Consistent with established background." else "") ++
        "\nPhotorealistic, movie still, 8k, highly detailed.",
      by simp [serveGenerateFrame, generateFrame, promptOf, mkFrameRequest,
        String.append_assoc]⟩
  · exact ⟨"Cinematic shot, " ++ "Cinematic Realistic" ++ ". Shot type: ",
      ". Angle: " ++ f.camera_angle ++ ".\nScene: " ++ f.description ++ ".\n" ++
        charDescOf st.references ++ "\nConsistency: " ++ f.consistency_rules ++
        ". \nEnvironment context: " ++
        (if truthyOpt (lookupUrl (bgStep st.bgUrls st.backgrounds pv).1
            f.background_id) then "Consistent with established background." else "") ++
        "\nPhotorealistic, movie still, 8k, highly detailed.",
      by simp [serveGenerateFrame, generateFrame, promptOf, mkFrameRequest,
        String.append_assoc]⟩
  · exact ⟨"Cinematic shot, " ++ "Cinematic Realistic" ++ ". Shot type: " ++
        f.shot_type ++ ". Angle: ",
      ".\nScene: " ++ f.description ++ ".\n" ++
        charDescOf st.references ++ "\nConsistency: " ++ f.consistency_rules ++
        ". \nEnvironment context: " ++
        (if truthyOpt (lookupUrl (bgStep st.bgUrls st.backgrounds pv).1
            f.background_id) then "Consistent with established background." else "") ++
        "\nPhotorealistic, movie still, 8k, highly detailed.",
      by simp [serveGenerateFrame, generateFrame, promptOf, mkFrameRequest,
        String.append_assoc]⟩

/-- Witness for the amended C9 at a concrete run over one pending frame and
one url-bearing environment reference. -/
theorem claim_C9_amended_witness :
    (Call.generateFrame frameReqW ∈ (generateAll stEnv pvNone 2).calls) ∧
    (frameReqW.all_references = stEnv.references ∧
     frameReqW.bg_url =
       lookupUrl (generateAll stEnv pvNone 2).bgMap frameReqW.frame_plan.background_id ∧
     (serveGenerateFrame frameReqW).image_input =
       (frameReqW.all_references.filter (fun r => truthy r.url)).map (fun r => r.url) ++
         (if truthyOpt frameReqW.bg_url then [frameReqW.bg_url.getD ""] else []) ∧
     promptOf frameReqW.frame_plan frameReqW.all_references frameReqW.bg_url
         frameReqW.style =
       promptOf frameReqW.frame_plan (frameReqW.all_references.filter charProd)
         frameReqW.bg_url frameReqW.style ∧
     serveGenerateFrame frameReqW =
       serveGenerateFrame { frameReqW with anchor_image_url := none } ∧
     (∃ x y, (serveGenerateFrame frameReqW).prompt =
        x ++ (frameReqW.frame_plan.description ++ y)) ∧
     (∃ x y, (serveGenerateFrame frameReqW).prompt =
        x ++ (frameReqW.frame_plan.shot_type ++ y)) ∧
     (∃ x y, (serveGenerateFrame frameReqW).prompt =
        x ++ (frameReqW.frame_plan.camera_angle ++ y))) :=
  ⟨by decide, claim_C9_amended stEnv pvNone 2 frameReqW (by decide)⟩

/-- C6 amended: `planSequence` performs no structural validation — it
returns whatever payload `JSON.parse` produced, unchanged, even when frame
background ids do not resolve; a payload that does not parse (for example
one wrapped in extraneous formatting) surfaces its parse error unchanged,
and a provider HTTP failure surfaces as a generic `Gemini Error` message —
in both cases through the handler's single catch-all 500 path, with no
distinct PlanningError. -/
theorem claim_C6_amended (v : StoryboardPlan) (m : String) :
    planSequence (GeminiResponse.parsed v) = Except.ok v ∧
    planSequence (GeminiResponse.parseError m) = Except.error m ∧
    planSequence (GeminiResponse.httpError m) = Except.error ("Gemini Error: " ++ m) :=
  ⟨rfl, rfl, rfl⟩

/-! ## The concurrency bound of the batched frame loop -/

/-- The in-flight count is additive over concatenation. -/
theorem flight_append (a b : List Ev) : flight (a ++ b) = flight a + flight b := by
  induction a with
  | nil => simp [flight]
  | cons e a ih =>
    cases e with
    | dispatch n => simp [flight, ih]; ring
    | settle n => simp [flight, ih]; ring

/-- An initial segment of a concatenation stops inside the first part or
swallows it whole. -/
theorem starts_append (pre a b : List Ev) (h : Starts pre (a ++ b)) :
    Starts pre a ∨ ∃ pre2, pre = a ++ pre2 ∧ Starts pre2 b := by
  induction a generalizing pre with
  | nil => exact Or.inr ⟨pre, rfl, h⟩
  | cons e a ih =>
    cases pre with
    | nil => exact Or.inl ⟨e :: a, rfl⟩
    | cons e2 pre2 =>
      obtain ⟨rest, hrest⟩ := h
      simp only [List.cons_append] at hrest
      injection hrest with he htl
      subst he
      rcases ih pre2 ⟨rest, htl⟩ with ⟨r2, hr2⟩ | ⟨p3, hp3, h3⟩
      · exact Or.inl ⟨r2, by rw [List.cons_append, hr2]⟩
      · exact Or.inr ⟨p3, by rw [List.cons_append, hp3], h3⟩

/-- Events of a segment only concern members of the batch: a dispatch is of
a not-yet-dispatched member, a settle of a member that is pending or in
flight. -/
theorem inter_members {toDis infl : List Nat} {seg : List Ev} (h : Inter toDis infl seg) :
    ∀ n, (Ev.dispatch n ∈ seg → n ∈ toDis) ∧
      (Ev.settle n ∈ seg → n ∈ toDis ∨ n ∈ infl) := by
  induction h with
  | done =>
    intro n
    constructor <;> intro hm <;> simp at hm
  | disp m hm h2 ih =>
    intro n
    constructor
    · intro hmem
      rcases List.mem_cons.mp hmem with he | he
      · injection he with hn
        subst hn
        exact hm
      · exact List.mem_of_mem_erase ((ih n).1 he)
    · intro hmem
      rcases List.mem_cons.mp hmem with he | he
      · exact absurd he (by simp)
      · rcases (ih n).2 he with h3 | h3
        · exact Or.inl (List.mem_of_mem_erase h3)
        · rcases List.mem_cons.mp h3 with h4 | h4
          · subst h4
            exact Or.inl hm
          · exact Or.inr h4
  | stl m hm h2 ih =>
    intro n
    constructor
    · intro hmem
      rcases List.mem_cons.mp hmem with he | he
      · exact absurd he (by simp)
      · exact (ih n).1 he
    · intro hmem
      rcases List.mem_cons.mp hmem with he | he
      · injection he with hn
        subst hn
        exact Or.inr hm
      · rcases (ih n).2 he with h3 | h3
        · exact Or.inl h3
        · exact Or.inr (List.mem_of_mem_erase h3)

/-- Every member of the batch settles inside the segment (`Promise.all`
resolves only once each member settles). -/
theorem inter_settles {toDis infl : List Nat} {seg : List Ev} (h : Inter toDis infl seg) :
    ∀ m, (m ∈ toDis ∨ m ∈ infl) → Ev.settle m ∈ seg := by
  induction h with
  | done =>
    intro m hm
    rcases hm with h1 | h1 <;> simp at h1
  | disp k hk h2 ih =>
    intro m hm
    apply List.mem_cons_of_mem
    apply ih
    rcases hm with h1 | h1
    · by_cases hmk : m = k
      · subst hmk
        exact Or.inr (List.mem_cons_self _ _)
      · exact Or.inl ((List.mem_erase_of_ne hmk).mpr h1)
    · exact Or.inr (List.mem_cons_of_mem _ h1)
  | stl k hk h2 ih =>
    intro m hm
    rcases hm with h1 | h1
    · exact List.mem_cons_of_mem _ (ih m (Or.inl h1))
    · by_cases hmk : m = k
      · subst hmk
        exact List.mem_cons_self _ _
      · exact List.mem_cons_of_mem _ (ih m (Or.inr ((List.mem_erase_of_ne hmk).mpr h1)))

/-- In-flight bounds inside one segment: after any initial part of the
segment, the net count stays between `-(inflight)` and the number of
not-yet-dispatched members; the whole segment nets `-(inflight)`. -/
theorem inter_flight_bounds {toDis infl : List Nat} {seg : List Ev}
    (h : Inter toDis infl seg) :
    (∀ pre, Starts pre seg →
      -(infl.length : Int) ≤ flight pre ∧ flight pre ≤ (toDis.length : Int)) ∧
    flight seg = -(infl.length : Int) := by
  induction h with
  | done =>
    constructor
    · intro pre hpre
      obtain ⟨rest, hrest⟩ := hpre
      have hp : pre = [] := (List.append_eq_nil.mp hrest.symm).1
      subst hp
      simp [flight]
    · simp [flight]
  | disp k hk h2 ih =>
    rename_i toDis2 infl2 tr2
    have hlen : 0 < toDis2.length := List.length_pos_of_mem hk
    have herase : (toDis2.erase k).length = toDis2.length - 1 :=
      List.length_erase_of_mem hk
    constructor
    · intro pre hpre
      cases pre with
      | nil =>
        simp only [flight]
        omega
      | cons e pre2 =>
        obtain ⟨rest, hrest⟩ := hpre
        simp only [List.cons_append] at hrest
        injection hrest with he htl
        subst he
        have h3 := ih.1 pre2 ⟨rest, htl⟩
        simp only [List.length_cons] at h3
        simp only [flight]
        omega
    · have h3 := ih.2
      simp only [List.length_cons] at h3
      simp only [flight, h3]
      omega
  | stl k hk h2 ih =>
    rename_i toDis2 infl2 tr2
    have hlen : 0 < infl2.length := List.length_pos_of_mem hk
    have herase : (infl2.erase k).length = infl2.length - 1 :=
      List.length_erase_of_mem hk
    constructor
    · intro pre hpre
      cases pre with
      | nil =>
        simp only [flight]
        omega
      | cons e pre2 =>
        obtain ⟨rest, hrest⟩ := hpre
        simp only [List.cons_append] at hrest
        injection hrest with he htl
        subst he
        have h3 := ih.1 pre2 ⟨rest, htl⟩
        rw [herase] at h3
        simp only [flight]
        omega
    · have h3 := ih.2
      rw [herase] at h3
      simp only [flight, h3]
      omega

/-- At every moment of a run whose batches all have at most `K` members,
between 0 and `K` requests are in flight. -/
theorem batchRun_flight {K : Nat} {bs : List (List Nat)} {tr : List Ev}
    (h : BatchRun bs tr) :
    (∀ b ∈ bs, b.length ≤ K) →
    ∀ pre, Starts pre tr → 0 ≤ flight pre ∧ flight pre ≤ (K : Int) := by
  induction h with
  | nil =>
    intro _ pre hpre
    obtain ⟨rest, hrest⟩ := hpre
    have hp : pre = [] := (List.append_eq_nil.mp hrest.symm).1
    subst hp
    simp [flight]
  | cons hseg hrun ih =>
    rename_i b bs2 seg tr2
    intro hb pre hpre
    rcases starts_append pre seg tr2 hpre with h1 | ⟨pre2, hp2, h2⟩
    · have h3 := (inter_flight_bounds hseg).1 pre h1
      simp only [List.length_nil, Nat.cast_zero, neg_zero] at h3
      have hbK : b.length ≤ K := hb b (List.mem_cons_self _ _)
      constructor
      · exact h3.1
      · calc flight pre ≤ (b.length : Int) := h3.2
          _ ≤ (K : Int) := by exact_mod_cast hbK
    · subst hp2
      rw [flight_append, (inter_flight_bounds hseg).2]
      simp only [List.length_nil, Nat.cast_zero, neg_zero, zero_add]
      exact ih (fun b2 hb2 => hb b2 (List.mem_cons_of_mem _ hb2)) pre2 h2

/-- Splitting a concatenation at a distinguished element: the occurrence is
inside the first part, or the first part is a whole initial piece of the
left context. -/
theorem append_split {α : Type} (a b x y : List α) (e : α) (h : a ++ b = x ++ e :: y) :
    (∃ y1, a = x ++ e :: y1) ∨ (∃ x2, x = a ++ x2 ∧ b = x2 ++ e :: y) := by
  induction a generalizing x with
  | nil => exact Or.inr ⟨x, rfl, by simpa using h⟩
  | cons c a2 ih =>
    cases x with
    | nil =>
      simp only [List.nil_append, List.cons_append] at h
      injection h with h1 h2
      subst h1
      exact Or.inl ⟨a2, by simp⟩
    | cons d x2 =>
      simp only [List.cons_append] at h
      injection h with h1 h2
      subst h1
      rcases ih x2 h2 with ⟨y1, hy⟩ | ⟨x3, hx3, hb2⟩
      · exact Or.inl ⟨y1, by rw [List.cons_append, hy]⟩
      · exact Or.inr ⟨x3, by rw [List.cons_append, hx3], hb2⟩

/-- Batch ordering in a run with duplicate-free work: every member of an
earlier batch has settled strictly before any member of a later batch is
dispatched. -/
theorem batchRun_ordering {bs : List (List Nat)} {tr : List Ev} (h : BatchRun bs tr) :
    bs.flatten.Nodup →
    ∀ i j (hi : i < bs.length) (hj : j < bs.length), i < j →
      ∀ x n y, tr = x ++ Ev.dispatch n :: y →
      n ∈ bs[j] → ∀ m ∈ bs[i], Ev.settle m ∈ x := by
  induction h with
  | nil =>
    intro _ i j hi hj hij x n y htr hn m hm
    simp at hi
  | cons hseg hrun ih =>
    rename_i b bs2 seg tr2
    intro hnd i j hi hj hij x n y htr hn m hm
    have hnd2 : (b ++ bs2.flatten).Nodup := by simpa using hnd
    cases j with
    | zero => omega
    | succ j2 =>
      have hj2 : j2 < bs2.length := by simpa using hj
      have hn2 : n ∈ bs2[j2] := by simpa using hn
      rcases append_split seg tr2 x y (Ev.dispatch n) htr with ⟨y1, hy⟩ |
        ⟨x2, hx2, hb2⟩
      · exfalso
        have hdisp : Ev.dispatch n ∈ seg := by
          rw [hy]
          exact List.mem_append_right _ (List.mem_cons_self _ _)
        have hnb : n ∈ b := (inter_members hseg n).1 hdisp
        have hnflat : n ∈ bs2.flatten :=
          List.mem_flatten.mpr ⟨bs2[j2], List.getElem_mem hj2, hn2⟩
        exact (List.nodup_append.mp hnd2).2.2 hnb hnflat
      · subst hx2
        cases i with
        | zero =>
          have hm2 : m ∈ b := by simpa using hm
          exact List.mem_append_left _ (inter_settles hseg m (Or.inl hm2))
        | succ i2 =>
          have hi2 : i2 < bs2.length := by simpa using hi
          have hm2 : m ∈ bs2[i2] := by simpa using hm
          exact List.mem_append_right _
            (ih (List.nodup_append.mp hnd2).2.1 i2 j2 hi2 hj2 (by omega) x2 n y hb2
              hn2 m hm2)

/-- Every batch produced by the slice loop has at most `K` members. -/
theorem chunksFuel_length_le (K : Nat) (hK : 0 < K) :
    ∀ fuel (l : List Nat), ∀ c ∈ chunksFuel K fuel l, c.length ≤ K := by
  intro fuel
  induction fuel with
  | zero =>
    intro l c hc
    cases l <;> simp [chunksFuel] at hc
  | succ n ih =>
    intro l c hc
    cases l with
    | nil => simp [chunksFuel] at hc
    | cons a l2 =>
      simp only [chunksFuel, List.mem_cons] at hc
      rcases hc with hc | hc
      · subst hc
        simp only [List.length_cons, List.length_take]
        have h3 : min (K - 1) l2.length ≤ K - 1 := min_le_left _ _
        omega
      · exact ih (l2.drop (K - 1)) c hc

/-! ## Claim theorem: the concurrency bound -/

/-- C4. In every run of the batched frame loop (any interleaving within a
batch, batches in queue order as the source's `await Promise.all`
enforces): at any moment between 0 and `K` frame requests are in flight
(`K` the configured batch limit — 2 in the second variant, 3 in the
first), and no request of a later batch is dispatched before every request
of any earlier batch has settled. -/
theorem claim_C4_concurrency_bound (frames : List StoryboardFrame) (K : Nat)
    (tr : List Ev) (hK : 0 < K) (hnd : (frameQueue frames).Nodup)
    (hrun : BatchRun (chunks K (frameQueue frames)) tr) :
    (∀ pre, Starts pre tr → 0 ≤ flight pre ∧ flight pre ≤ (K : Int)) ∧
    (∀ i j (hi : i < (chunks K (frameQueue frames)).length)
       (hj : j < (chunks K (frameQueue frames)).length), i < j →
       ∀ x n y, tr = x ++ Ev.dispatch n :: y →
       n ∈ (chunks K (frameQueue frames))[j] →
       ∀ m ∈ (chunks K (frameQueue frames))[i], Ev.settle m ∈ x) := by
  constructor
  · exact batchRun_flight hrun
      (fun b hb => chunksFuel_length_le K hK (frameQueue frames).length
        (frameQueue frames) b hb)
  · have hndf : (chunks K (frameQueue frames)).flatten.Nodup := by
      rw [chunks_flatten]
      exact hnd
    exact batchRun_ordering hrun hndf

/-- A concrete run: three pending frames, `K = 2`, trace `trW`. -/
theorem batchRunW : BatchRun (chunks 2 (frameQueue framesThree)) trW := by
  show BatchRun [[1, 2], [3]] trW
  have h1 : Inter [1, 2] [] [Ev.dispatch 1, Ev.dispatch 2, Ev.settle 2, Ev.settle 1] := by
    apply Inter.disp 1 (by decide)
    apply Inter.disp 2 (by decide)
    apply Inter.stl 2 (by decide)
    apply Inter.stl 1 (by decide)
    exact Inter.done
  have h2 : Inter [3] [] [Ev.dispatch 3, Ev.settle 3] := by
    apply Inter.disp 3 (by decide)
    apply Inter.stl 3 (by decide)
    exact Inter.done
  exact BatchRun.cons h1 (BatchRun.cons h2 BatchRun.nil)

/-- Witness for C4 at the concrete three-frame run. -/
theorem claim_C4_concurrency_bound_witness :
    (0 < 2 ∧ (frameQueue framesThree).Nodup ∧
      BatchRun (chunks 2 (frameQueue framesThree)) trW) ∧
    ((∀ pre, Starts pre trW → 0 ≤ flight pre ∧ flight pre ≤ (2 : Int)) ∧
     (∀ i j (hi : i < (chunks 2 (frameQueue framesThree)).length)
        (hj : j < (chunks 2 (frameQueue framesThree)).length), i < j →
        ∀ x n y, trW = x ++ Ev.dispatch n :: y →
        n ∈ (chunks 2 (frameQueue framesThree))[j] →
        ∀ m ∈ (chunks 2 (frameQueue framesThree))[i], Ev.settle m ∈ x)) :=
  ⟨⟨by decide, by decide, batchRunW⟩,
   claim_C4_concurrency_bound framesThree 2 trW (by decide) (by decide) batchRunW⟩

end Popcorn
